import Mathlib

/-!
Shallow embedding of the state-persistence helpers of `gathersdk`
(`src/gathersdk/context_helpers.py`): the minimal-state reducer
(`get_minimal_state`, `_process_list_item`, `_process_dict`) and the
restoration helpers (`restore_from_minimal_state`,
`restore_or_create_agent_state`, `deserialize_agent_state`), together with
theorems settling the frozen claims about them.

Python strings are modelled as lists of characters, Python dicts as
association lists in insertion order (Python dicts preserve insertion
order and have unique keys), and Python runtime values as the inductive
type `Value` below.  Machinery that can raise is modelled with `Except` /
`Option`.  For the frame-effect claim about `restore_from_minimal_state`,
dicts live in an explicit heap of references so that in-place mutation is
observable.
-/

namespace GatherSDK

/-- A Python string, as its sequence of characters. -/
abbrev PyStr := List Char

/-- Helper to write a Python string literal. -/
def pk (s : String) : PyStr := s.data

/-- A Python runtime value as it can appear in a `model_dump()` result:
`None`, `bool`, `int` (numbers), `str`, `datetime` (carrying the string its
`isoformat()` returns), `list`, `dict` (insertion-ordered association
list), or any other object (`vother`), carrying its type's `__name__` and
the result of `str(value)` (`none` when `str` itself raises). -/
inductive Value where
  | vnone : Value
  | vbool (b : Bool) : Value
  | vint (n : Int) : Value
  | vstr (s : PyStr) : Value
  | vdatetime (iso : PyStr) : Value
  | vlist (xs : List Value) : Value
  | vdict (entries : List (PyStr × Value)) : Value
  | vother (tyName : PyStr) (strRepr : Option PyStr) : Value

instance : Inhabited Value := ⟨Value.vnone⟩

/-- Python's `type(v).__name__` for the kinds of values we model. -/
def pyTypeName : Value → PyStr
  | .vnone => pk "NoneType"
  | .vbool _ => pk "bool"
  | .vint _ => pk "int"
  | .vstr _ => pk "str"
  | .vdatetime _ => pk "datetime"
  | .vlist _ => pk "list"
  | .vdict _ => pk "dict"
  | .vother tn _ => tn

/-- Decimal rendering of a natural number, as used by Python f-strings. -/
def natStr (n : Nat) : PyStr := (Nat.repr n).data

/-- Embedding of `_process_list_item(item, max_size)`
(`context_helpers.py` lines 367-381): `None` passes through; `str` is
truncated to `max_size` when longer; `int`/`float`/`bool` pass through;
`datetime` becomes its ISO string; a dict item becomes the mapping from
its keys to the type names of its values; anything else (lists included)
becomes its type name. -/
def _process_list_item (item : Value) (max_size : Nat) : Value :=
  match item with
  | .vnone => .vnone
  | .vstr s => if s.length > max_size then .vstr (s.take max_size) else .vstr s
  | .vint n => .vint n
  | .vbool b => .vbool b
  | .vdatetime iso => .vstr iso
  | .vdict d => .vdict (d.map (fun kv => (kv.1, Value.vstr (pyTypeName kv.2))))
  | .vlist xs => .vstr (pyTypeName (.vlist xs))
  | .vother tn r => .vstr (pyTypeName (.vother tn r))

/-- Embedding of `_process_dict(d, max_size, depth, max_depth)`
(`context_helpers.py` lines 384-400): at `depth ≥ max_depth` the whole
mapping collapses to the sentinel entry `{"<truncated>": f"{len(d)} items"}`;
below the bound the first 20 entries are kept, nested dicts are recursed
into with `depth + 1`, over-long strings are truncated, lists become the
descriptor string `"<list[N]>"`, and every other value passes through
unchanged. -/
def _process_dict (d : List (PyStr × Value)) (max_size : Nat)
    (depth : Nat) (max_depth : Nat) : List (PyStr × Value) :=
  if depth ≥ max_depth then
    [(pk "<truncated>", Value.vstr (natStr d.length ++ pk " items"))]
  else
    (d.take 20).map (fun kv =>
      match kv.2 with
      | .vdict d2 => (kv.1, Value.vdict (_process_dict d2 max_size (depth + 1) max_depth))
      | .vstr s =>
          if s.length > max_size then (kv.1, Value.vstr (s.take max_size))
          else (kv.1, Value.vstr s)
      | .vlist xs => (kv.1, Value.vstr (pk "<list[" ++ natStr xs.length ++ pk "]>"))
      | v => (kv.1, v))
termination_by max_depth - depth
decreasing_by
  simp_wf
  omega

/-- The per-field processing of the loop body of `get_minimal_state`
(`context_helpers.py` lines 330-358), applied to one field's value. -/
def processField (value : Value) (max_field_size : Nat) : Value :=
  match value with
  | .vnone => .vnone
  | .vstr s =>
      if s.length > max_field_size then .vstr (s.take max_field_size) else .vstr s
  | .vint n => .vint n
  | .vbool b => .vbool b
  | .vdatetime iso => .vstr iso
  | .vlist xs =>
      .vlist ((xs.take 10).map (fun item => _process_list_item item max_field_size))
  | .vdict d => .vdict (_process_dict d max_field_size 1 2)
  | .vother _ r =>
      match r with
      | some s =>
          if s.length > max_field_size then .vstr (s.take max_field_size) else .vstr s
      | none => .vstr (pk "<complex_object>")

/-- A Pydantic model instance, as far as `get_minimal_state` observes it:
its `model_dump()` either returns a field mapping or raises. -/
structure PyModel where
  dump : Except PyStr (List (PyStr × Value))

/-- The default excluded-field set of `get_minimal_state`:
`{'agent_context', 'storage_manager', '_kg_manager'}`. -/
def defaultExcluded : List PyStr :=
  [pk "agent_context", pk "storage_manager", pk "_kg_manager"]

/-- `excluded = excluded_fields or {...}` (line 318): `None` or an empty
set both fall back to the default set (an empty Python set is falsy). -/
def excludedSet (excluded_fields : Option (List PyStr)) : List PyStr :=
  match excluded_fields with
  | some e => if e = [] then defaultExcluded else e
  | none => defaultExcluded

/-- The field loop of `get_minimal_state` (lines 325-358): skip excluded
keys, process every other field's value. -/
def reduceFields (full_state : List (PyStr × Value)) (max_field_size : Nat)
    (excluded : List PyStr) : List (PyStr × Value) :=
  full_state.filterMap (fun kv =>
    if kv.1 ∈ excluded then none
    else some (kv.1, processField kv.2 max_field_size))

/-- Embedding of `get_minimal_state(dependency_graph, max_field_size,
excluded_fields)` (`context_helpers.py` lines 287-364): a falsy (absent)
graph yields `{}`; a graph whose `model_dump()` raises is caught by the
outer `try`/`except` and yields `{}`; otherwise each non-excluded field is
reduced. -/
def get_minimal_state (dependency_graph : Option PyModel)
    (max_field_size : Nat) (excluded_fields : Option (List PyStr)) :
    List (PyStr × Value) :=
  match dependency_graph with
  | none => []
  | some g =>
    match g.dump with
    | .error _ => []
    | .ok full_state =>
        reduceFields full_state max_field_size (excludedSet excluded_fields)

/-! ### JSON-safety of values (for the invariant claims) -/

mutual

/-- A value is JSON-safe when everything reachable in it is `None`, a
boolean, a number, a string, a list of such values, or a mapping of such
values.  `datetime` objects and arbitrary Python objects are not. -/
def jsonSafe : Value → Bool
  | .vnone => true
  | .vbool _ => true
  | .vint _ => true
  | .vstr _ => true
  | .vdatetime _ => false
  | .vother _ _ => false
  | .vlist xs => jsonSafeList xs
  | .vdict d => jsonSafeEntries d

/-- All values of a list are JSON-safe. -/
def jsonSafeList : List Value → Bool
  | [] => true
  | x :: xs => jsonSafe x && jsonSafeList xs

/-- All values of a mapping are JSON-safe. -/
def jsonSafeEntries : List (PyStr × Value) → Bool
  | [] => true
  | kv :: rest => jsonSafe kv.2 && jsonSafeEntries rest

end

/-- A dict field's direct value is "tame" when it is not a `datetime` and
not an arbitrary Python object — the two kinds that `_process_dict`'s
default branch passes through unreduced. -/
def dictValueTame : Value → Bool
  | .vdatetime _ => false
  | .vother _ _ => false
  | _ => true

/-- Premise of the amended JSON-safety claim: a top-level field value is
tame when, if it is a mapping, all of its direct values are tame. -/
def fieldJsonTame : Value → Bool
  | .vdict d => d.all (fun kv => dictValueTame kv.2)
  | _ => true

/-! ### Already-minimal values (for the idempotence claim) -/

/-- A scalar already within the size bounds: `None`, a boolean, a number,
or a string of length at most `max`. -/
def minimalScalar (max : Nat) : Value → Bool
  | .vnone => true
  | .vbool _ => true
  | .vint _ => true
  | .vstr s => decide (s.length ≤ max)
  | _ => false

/-- A field value already within the reducer's bounds, in the sense of the
amended idempotence claim: scalars within the size bound; lists of at most
10 elements whose elements are in-bound scalars; mappings of at most 20
entries whose values are in-bound scalars. -/
def minimalField (max : Nat) : Value → Bool
  | .vnone => true
  | .vbool _ => true
  | .vint _ => true
  | .vstr s => decide (s.length ≤ max)
  | .vlist xs => decide (xs.length ≤ 10) && xs.all (fun x => minimalScalar max x)
  | .vdict d => decide (d.length ≤ 20) && d.all (fun kv => minimalScalar max kv.2)
  | .vdatetime _ => false
  | .vother _ _ => false

/-! ### Restoration side: kwargs dictionaries and a heap of dict objects

`restore_from_minimal_state` mixes plain dumped values with the live
`AgentContext` object in one kwargs dict, and it mutates Python dict
objects in place, so kwargs values are `Arg` (a dumped `Value` or a
context reference) and dict objects live in an explicit heap indexed by
references. -/

/-- A value of a kwargs dictionary: either a plain (dumped) value or the
live chat-session context object. -/
inductive Arg (Ctx : Type) where
  | val (v : Value)
  | ctx (c : Ctx)

instance {Ctx : Type} : Inhabited (Arg Ctx) := ⟨Arg.val Value.vnone⟩

/-- A Python dict used as kwargs, in insertion order. -/
abbrev Kwargs (Ctx : Type) := List (PyStr × Arg Ctx)

/-- A heap of dict objects; a dict reference is an index into it. -/
abbrev Heap (Ctx : Type) := List (Kwargs Ctx)

/-- Read the dict object behind a reference. -/
def heapGet {Ctx : Type} : Heap Ctx → Nat → Kwargs Ctx
  | [], _ => []
  | d :: _, 0 => d
  | _ :: t, n + 1 => heapGet t n

/-- Overwrite the dict object behind a reference. -/
def heapSet {Ctx : Type} : Heap Ctx → Nat → Kwargs Ctx → Heap Ctx
  | [], _, _ => []
  | _ :: t, 0, d => d :: t
  | x :: t, n + 1, d => x :: heapSet t n d

/-- Python `k in d` on a dict. -/
def dictHasKey {Ctx : Type} (d : Kwargs Ctx) (k : PyStr) : Bool :=
  d.any (fun p => p.1 == k)

/-- Python `d[k] = v`: update in place when the key exists (keeping its
position), append otherwise. -/
def dictAssign {Ctx : Type} (d : Kwargs Ctx) (k : PyStr) (v : Arg Ctx) : Kwargs Ctx :=
  if dictHasKey d k then d.map (fun p => if p.1 == k then (k, v) else p)
  else d ++ [(k, v)]

/-- Python `d.update(kvs)`. -/
def dictUpdate {Ctx : Type} (d : Kwargs Ctx) (kvs : Kwargs Ctx) : Kwargs Ctx :=
  kvs.foldl (fun acc p => dictAssign acc p.1 p.2) d

/-- Python `v is None` on a kwargs value. -/
def isNoneArg {Ctx : Type} : Arg Ctx → Bool
  | .val .vnone => true
  | _ => false

/-- Python `d.get(k)` / attribute read on the resulting model instance:
the value of the first entry with the given key. -/
def dictLookup {Ctx : Type} (d : Kwargs Ctx) (k : PyStr) : Option (Arg Ctx) :=
  (d.find? (fun p => p.1 == k)).map (fun p => p.2)

/-- The back-reference field name. -/
def agent_context_key : PyStr := pk "agent_context"

/-- Embedding of `restore_from_minimal_state(minimal_state, model_type,
context, **override_kwargs)` (`context_helpers.py` lines 403-450).
`minimal_state` is a reference to a dict in the heap; `model_type` is the
Pydantic constructor/validator, returning the constructed instance's field
map or raising.  Returns the heap after the call together with the result
(`Except.error` = an exception escapes).  The fallback construction
`model_type(agent_context=context, **override_kwargs)` raises in Python
before the constructor even runs when `override_kwargs` itself binds
`agent_context` twice, hence the `dictHasKey` guard. -/
def restore_from_minimal_state {Ctx : Type} (h : Heap Ctx) (minimal_state : Nat)
    (model_type : Kwargs Ctx → Except Unit (Kwargs Ctx)) (context : Ctx)
    (override_kwargs : Kwargs Ctx) : Heap Ctx × Except Unit (Kwargs Ctx) :=
  -- init_kwargs = minimal_state.copy()
  let r := h.length
  let h1 := h ++ [heapGet h minimal_state]
  -- init_kwargs['agent_context'] = context
  let h2 := heapSet h1 r (dictAssign (heapGet h1 r) agent_context_key (Arg.ctx context))
  -- init_kwargs.update(override_kwargs)
  let h3 := heapSet h2 r (dictUpdate (heapGet h2 r) override_kwargs)
  -- init_kwargs = {k: v for k, v in init_kwargs.items() if v is not None}
  let r2 := h3.length
  let h4 := h3 ++ [(heapGet h3 r).filter (fun p => !isNoneArg p.2)]
  let result : Except Unit (Kwargs Ctx) :=
    match model_type (heapGet h4 r2) with
    | .ok inst => .ok inst
    | .error _ =>
        if dictHasKey override_kwargs agent_context_key then .error ()
        else model_type ((agent_context_key, Arg.ctx context) :: override_kwargs)
  (h4, result)

/-- Embedding of `deserialize_agent_state(state_json, model_type)`
(`context_helpers.py` lines 204-238): a falsy (empty) JSON string yields
`None`; otherwise `json.loads` + `model_validate` — abstracted as
`model_validate`, whose `none` covers both raising paths of the
`try`/`except` — yields the instance or `None`. -/
def deserialize_agent_state {Ctx : Type} (state_json : PyStr)
    (model_validate : PyStr → Option (Kwargs Ctx)) : Option (Kwargs Ctx) :=
  if state_json = [] then none
  else model_validate state_json

/-- Embedding of `restore_or_create_agent_state(context, model_type,
**create_kwargs)` (`context_helpers.py` lines 241-284).  `agent_state` is
`context.agent_state` (empty = falsy = absent); `genesis` is the instance
`model_type(**create_kwargs)` constructs.  On successful restoration the
back-reference field is re-pointed to the current context when the model
has that attribute. -/
def restore_or_create_agent_state {Ctx : Type} (agent_state : PyStr)
    (model_validate : PyStr → Option (Kwargs Ctx)) (context : Ctx)
    (genesis : Kwargs Ctx) : Kwargs Ctx :=
  if agent_state ≠ [] then
    match deserialize_agent_state agent_state model_validate with
    | some restored =>
        if dictHasKey restored agent_context_key then
          dictAssign restored agent_context_key (Arg.ctx context)
        else restored
    | none => genesis
  else genesis

/-! ## Helper lemmas -/

theorem processDict_at_bound (d : List (PyStr × Value)) (max_size depth max_depth : Nat)
    (h : depth ≥ max_depth) :
    _process_dict d max_size depth max_depth
      = [(pk "<truncated>", Value.vstr (natStr d.length ++ pk " items"))] := by
  rw [_process_dict.eq_def, if_pos h]

theorem processDict_below (d : List (PyStr × Value)) (max_size depth max_depth : Nat)
    (h : depth < max_depth) :
    _process_dict d max_size depth max_depth
      = (d.take 20).map (fun kv =>
          match kv.2 with
          | .vdict d2 =>
              (kv.1, Value.vdict (_process_dict d2 max_size (depth + 1) max_depth))
          | .vstr s =>
              if s.length > max_size then (kv.1, Value.vstr (s.take max_size))
              else (kv.1, Value.vstr s)
          | .vlist xs => (kv.1, Value.vstr (pk "<list[" ++ natStr xs.length ++ pk "]>"))
          | v => (kv.1, v)) := by
  rw [_process_dict.eq_def, if_neg (by omega)]

theorem mem_reduceFields {fs : List (PyStr × Value)} {k : PyStr} {v : Value}
    (max_size : Nat) {excl : List PyStr} (hmem : (k, v) ∈ fs) (hk : k ∉ excl) :
    (k, processField v max_size) ∈ reduceFields fs max_size excl := by
  exact List.mem_filterMap.mpr ⟨(k, v), hmem, by simp [hk]⟩

theorem keys_reduceFields_not_excluded {fs : List (PyStr × Value)} {max_size : Nat}
    {excl : List PyStr} {k : PyStr}
    (hk : k ∈ (reduceFields fs max_size excl).map Prod.fst) : k ∉ excl := by
  obtain ⟨kv, hkv, hfst⟩ := List.mem_map.mp hk
  obtain ⟨kv0, _, hsome⟩ := List.mem_filterMap.mp hkv
  have hsome' : (if kv0.1 ∈ excl then none
      else some (kv0.1, processField kv0.2 max_size)) = some kv := hsome
  by_cases hin : kv0.1 ∈ excl
  · rw [if_pos hin] at hsome'
    cases hsome'
  · rw [if_neg hin] at hsome'
    cases hsome'
    rw [← hfst]
    exact hin

theorem mem_excludedSet_of_mem {E : List PyStr} {k : PyStr} (h : k ∈ E) :
    k ∈ excludedSet (some E) := by
  by_cases hE : E = []
  · subst hE; cases h
  · simpa [excludedSet, hE] using h

/-! ## The claims -/

/-- C1: for every state object, every `maxFieldSize` and every
`excludedFields` set `E`, the mapping `get_minimal_state` returns contains
no key of `E`; with the default excluded set, `agent_context`,
`storage_manager` and `_kg_manager` never appear among the keys. -/
theorem reduce_never_emits_excluded_keys
    (g : Option PyModel) (max_size : Nat) (E : List PyStr) (k : PyStr) :
    (k ∈ E → k ∉ (get_minimal_state g max_size (some E)).map Prod.fst) ∧
    (k ∈ defaultExcluded → k ∉ (get_minimal_state g max_size none).map Prod.fst) := by
  constructor
  · intro hkE hk
    match g with
    | none => cases hk
    | some gm =>
      match hdump : gm.dump with
      | .error e => simp [get_minimal_state, hdump] at hk
      | .ok fs =>
        simp only [get_minimal_state, hdump] at hk
        exact keys_reduceFields_not_excluded hk (mem_excludedSet_of_mem hkE)
  · intro hkD hk
    match g with
    | none => cases hk
    | some gm =>
      match hdump : gm.dump with
      | .error e => simp [get_minimal_state, hdump] at hk
      | .ok fs =>
        simp only [get_minimal_state, hdump] at hk
        exact keys_reduceFields_not_excluded hk hkD

/-- Witness for C1 at concrete inputs. -/
theorem reduce_never_emits_excluded_keys_witness :
    (pk "secret" ∈ [pk "secret"] ∧
      pk "secret" ∉ (get_minimal_state
        (some ⟨Except.ok [(pk "secret", Value.vstr (pk "x")), (pk "a", Value.vint 1)]⟩)
        1000 (some [pk "secret"])).map Prod.fst) ∧
    (pk "agent_context" ∈ defaultExcluded ∧
      pk "agent_context" ∉ (get_minimal_state
        (some ⟨Except.ok [(pk "agent_context", Value.vint 7), (pk "b", Value.vnone)]⟩)
        1000 none).map Prod.fst) := by
  refine ⟨⟨by simp, ?_⟩, ⟨by simp [defaultExcluded], ?_⟩⟩
  · exact (reduce_never_emits_excluded_keys _ _ _ _).1 (by simp)
  · exact (reduce_never_emits_excluded_keys
      (some ⟨Except.ok [(pk "agent_context", Value.vint 7), (pk "b", Value.vnone)]⟩)
      1000 [] (pk "agent_context")).2 (by simp [defaultExcluded])

/-- C2: every non-excluded top-level string field longer than
`maxFieldSize` appears in the result truncated to exactly its first
`maxFieldSize` characters (shorter strings verbatim), and every
non-excluded top-level list field appears capped to its first 10 elements,
each processed by the item reducer — exactly 10 when the list was longer. -/
theorem reduce_truncates_strings_and_caps_lists
    (fs : List (PyStr × Value)) (max_size : Nat) (E : Option (List PyStr)) (k : PyStr) :
    (∀ s : PyStr, (k, Value.vstr s) ∈ fs → k ∉ excludedSet E →
      ((k, if s.length > max_size then Value.vstr (s.take max_size) else Value.vstr s)
          ∈ get_minimal_state (some ⟨Except.ok fs⟩) max_size E) ∧
      (s.length > max_size → (s.take max_size).length = max_size)) ∧
    (∀ xs : List Value, (k, Value.vlist xs) ∈ fs → k ∉ excludedSet E →
      ((k, Value.vlist ((xs.take 10).map (fun item => _process_list_item item max_size)))
          ∈ get_minimal_state (some ⟨Except.ok fs⟩) max_size E) ∧
      (xs.length > 10 →
        ((xs.take 10).map (fun item => _process_list_item item max_size)).length = 10)) := by
  constructor
  · intro s hmem hk
    refine ⟨mem_reduceFields max_size hmem hk, fun hlen => ?_⟩
    rw [List.length_take]
    omega
  · intro xs hmem hk
    refine ⟨mem_reduceFields max_size hmem hk, fun hlen => ?_⟩
    rw [List.length_map, List.length_take]
    omega

/-- Witness for C2 at a concrete input: a 4-character string under
`maxFieldSize = 2` and a 12-element list. -/
theorem reduce_truncates_strings_and_caps_lists_witness :
    ((pk "name", Value.vstr (pk "abcd")) ∈
        [(pk "name", Value.vstr (pk "abcd")), (pk "xs", Value.vlist (List.replicate 12 Value.vnone))] ∧
      ((pk "name", if (pk "abcd").length > 2 then Value.vstr ((pk "abcd").take 2) else Value.vstr (pk "abcd"))
          ∈ get_minimal_state (some ⟨Except.ok
            [(pk "name", Value.vstr (pk "abcd")), (pk "xs", Value.vlist (List.replicate 12 Value.vnone))]⟩) 2 none) ∧
      ((pk "abcd").take 2).length = 2) ∧
    (((pk "xs", Value.vlist (((List.replicate 12 Value.vnone).take 10).map
          (fun item => _process_list_item item 2)))
        ∈ get_minimal_state (some ⟨Except.ok
          [(pk "name", Value.vstr (pk "abcd")), (pk "xs", Value.vlist (List.replicate 12 Value.vnone))]⟩) 2 none) ∧
      (((List.replicate 12 Value.vnone).take 10).map (fun item => _process_list_item item 2)).length = 10) := by
  have h := reduce_truncates_strings_and_caps_lists
    [(pk "name", Value.vstr (pk "abcd")), (pk "xs", Value.vlist (List.replicate 12 Value.vnone))]
    2 none (pk "name")
  have h2 := reduce_truncates_strings_and_caps_lists
    [(pk "name", Value.vstr (pk "abcd")), (pk "xs", Value.vlist (List.replicate 12 Value.vnone))]
    2 none (pk "xs")
  have hs := h.1 (pk "abcd") (by simp) (by simp [excludedSet, defaultExcluded, pk])
  have hx := h2.2 (List.replicate 12 Value.vnone) (by simp) (by simp [excludedSet, defaultExcluded, pk])
  exact ⟨⟨by simp, hs.1, hs.2 (by simp [pk])⟩, hx.1, hx.2 (by simp)⟩

/-- C4: `get_minimal_state` is total on degenerate input — a falsy/absent
state yields the empty mapping, and a state whose introspection
(`model_dump`) raises yields the empty mapping instead of propagating. -/
theorem reduce_empty_on_degenerate_input :
    (∀ (max_size : Nat) (E : Option (List PyStr)),
        get_minimal_state none max_size E = []) ∧
    (∀ (err : PyStr) (max_size : Nat) (E : Option (List PyStr)),
        get_minimal_state (some ⟨Except.error err⟩) max_size E = []) :=
  ⟨fun _ _ => rfl, fun _ _ _ => rfl⟩

/-- C5: `_process_dict` returns the sentinel `{"<truncated>": "<N> items"}`
(`N` = number of keys) at `depth ≥ maxDepth`; below the bound it keeps the
first 20 pairs (so `min 20 |d|` entries), recurses on nested mappings with
`depth + 1`, truncates over-long strings, and replaces list values with
`"<list[N]>"`; and the concrete scenario
`reduce({"nested": {"a": {"b": {"c": 1}}}})` yields
`{"nested": {"a": {"<truncated>": "1 items"}}}`. -/
theorem depth_bounded_mapping_reducer_spec
    (d d2 : List (PyStr × Value)) (max_size depth max_depth : Nat) (k : PyStr) :
    (depth ≥ max_depth →
      _process_dict d max_size depth max_depth
        = [(pk "<truncated>", Value.vstr (natStr d.length ++ pk " items"))]) ∧
    (depth < max_depth →
      (_process_dict d max_size depth max_depth).length = min 20 d.length) ∧
    (depth < max_depth → (k, Value.vdict d2) ∈ d.take 20 →
      (k, Value.vdict (_process_dict d2 max_size (depth + 1) max_depth))
        ∈ _process_dict d max_size depth max_depth) ∧
    (depth < max_depth → ∀ s : PyStr, (k, Value.vstr s) ∈ d.take 20 →
      s.length > max_size →
      (k, Value.vstr (s.take max_size)) ∈ _process_dict d max_size depth max_depth) ∧
    (depth < max_depth → ∀ xs : List Value, (k, Value.vlist xs) ∈ d.take 20 →
      (k, Value.vstr (pk "<list[" ++ natStr xs.length ++ pk "]>"))
        ∈ _process_dict d max_size depth max_depth) ∧
    (get_minimal_state (some ⟨Except.ok [(pk "nested", Value.vdict
        [(pk "a", Value.vdict [(pk "b", Value.vdict [(pk "c", Value.vint 1)])])])]⟩)
        1000 none
      = [(pk "nested", Value.vdict
          [(pk "a", Value.vdict [(pk "<truncated>", Value.vstr (pk "1 items"))])])]) := by
  refine ⟨fun h => processDict_at_bound d max_size depth max_depth h,
    fun h => ?_, fun h hmem => ?_, fun h s hmem hs => ?_, fun h xs hmem => ?_, ?_⟩
  · rw [processDict_below d max_size depth max_depth h, List.length_map, List.length_take]
  · rw [processDict_below d max_size depth max_depth h]
    exact List.mem_map_of_mem _ hmem
  · rw [processDict_below d max_size depth max_depth h]
    have := List.mem_map_of_mem (fun kv : PyStr × Value =>
      match kv.2 with
      | .vdict d2 => (kv.1, Value.vdict (_process_dict d2 max_size (depth + 1) max_depth))
      | .vstr s =>
          if s.length > max_size then (kv.1, Value.vstr (s.take max_size))
          else (kv.1, Value.vstr s)
      | .vlist xs => (kv.1, Value.vstr (pk "<list[" ++ natStr xs.length ++ pk "]>"))
      | v => (kv.1, v)) hmem
    simpa [hs] using this
  · rw [processDict_below d max_size depth max_depth h]
    exact List.mem_map_of_mem _ hmem
  · simp [get_minimal_state, reduceFields, processField, excludedSet, defaultExcluded, pk,
      _process_dict, natStr]
    decide

/-- Witness for C5 at concrete inputs. -/
theorem depth_bounded_mapping_reducer_spec_witness :
    (_process_dict [(pk "x", Value.vint 1), (pk "y", Value.vint 2)] 2 3 2
        = [(pk "<truncated>", Value.vstr (natStr 2 ++ pk " items"))]) ∧
    ((_process_dict [(pk "a", Value.vdict [(pk "b", Value.vint 2)]),
        (pk "s", Value.vstr (pk "abcd")), (pk "l", Value.vlist [Value.vnone])] 2 1 2).length
      = min 20 [(pk "a", Value.vdict [(pk "b", Value.vint 2)]),
        (pk "s", Value.vstr (pk "abcd")), (pk "l", Value.vlist [Value.vnone])].length) ∧
    ((pk "a", Value.vdict (_process_dict [(pk "b", Value.vint 2)] 2 2 2))
        ∈ _process_dict [(pk "a", Value.vdict [(pk "b", Value.vint 2)]),
          (pk "s", Value.vstr (pk "abcd")), (pk "l", Value.vlist [Value.vnone])] 2 1 2) ∧
    ((pk "s", Value.vstr ((pk "abcd").take 2))
        ∈ _process_dict [(pk "a", Value.vdict [(pk "b", Value.vint 2)]),
          (pk "s", Value.vstr (pk "abcd")), (pk "l", Value.vlist [Value.vnone])] 2 1 2) ∧
    ((pk "l", Value.vstr (pk "<list[" ++ natStr 1 ++ pk "]>"))
        ∈ _process_dict [(pk "a", Value.vdict [(pk "b", Value.vint 2)]),
          (pk "s", Value.vstr (pk "abcd")), (pk "l", Value.vlist [Value.vnone])] 2 1 2) := by
  have htake : ([(pk "a", Value.vdict [(pk "b", Value.vint 2)]),
      (pk "s", Value.vstr (pk "abcd")), (pk "l", Value.vlist [Value.vnone])]).take 20
      = [(pk "a", Value.vdict [(pk "b", Value.vint 2)]),
        (pk "s", Value.vstr (pk "abcd")), (pk "l", Value.vlist [Value.vnone])] :=
    List.take_of_length_le (by simp)
  refine ⟨(depth_bounded_mapping_reducer_spec
      [(pk "x", Value.vint 1), (pk "y", Value.vint 2)] [] 2 3 2 (pk "x")).1 (by omega),
    (depth_bounded_mapping_reducer_spec _ [] 2 1 2 (pk "a")).2.1 (by omega),
    (depth_bounded_mapping_reducer_spec _ [(pk "b", Value.vint 2)] 2 1 2 (pk "a")).2.2.1
      (by omega) (by rw [htake]; simp [pk]),
    (depth_bounded_mapping_reducer_spec _ [] 2 1 2 (pk "s")).2.2.2.1
      (by omega) (pk "abcd") (by rw [htake]; simp [pk]) (by simp [pk]),
    (depth_bounded_mapping_reducer_spec _ [] 2 1 2 (pk "l")).2.2.2.2.1
      (by omega) [Value.vnone] (by rw [htake]; simp [pk])⟩

/-- C6 counterexample: the item reducer does NOT reduce a mapping inside a
list element via the depth-bounded mapping reducer at depth 0 — it maps the
keys to the type names of the values instead — and an unknown-typed item is
left as its bare (untruncated) type name, an opaque type tag. -/
theorem item_reducer_not_recursive_counterexample :
    _process_list_item (Value.vdict [(pk "a", Value.vint 1)]) 1000
        ≠ Value.vdict (_process_dict [(pk "a", Value.vint 1)] 1000 0 2) ∧
    _process_list_item (Value.vother (pk "Widget") (some (pk "a Widget object"))) 3
        = Value.vstr (pk "Widget") := by
  have hR : _process_dict [(pk "a", Value.vint 1)] 1000 0 2 = [(pk "a", Value.vint 1)] := by
    rw [processDict_below _ _ _ _ (by omega)]
    rfl
  constructor
  · rw [hR]
    simp [_process_list_item, pyTypeName, pk]
  · rfl

/-- C6 amended: the item reducer passes `None` through, truncates scalar
strings under the same `maxFieldSize` rule as top-level strings, converts
timestamps to ISO-8601, replaces a mapping inside a list element by the
mapping from its keys to the type names of its values (it does not recurse
via the depth-bounded mapping reducer), and replaces every other value kind
(nested lists included) by its bare type name, untruncated. -/
theorem item_reducer_spec
    (max_size : Nat) (s iso tn : PyStr) (r : Option PyStr)
    (d : List (PyStr × Value)) (xs : List Value)
    (fs : List (PyStr × Value)) (k : PyStr) (E : Option (List PyStr)) :
    _process_list_item Value.vnone max_size = Value.vnone ∧
    _process_list_item (Value.vstr s) max_size
      = (if s.length > max_size then Value.vstr (s.take max_size) else Value.vstr s) ∧
    _process_list_item (Value.vdatetime iso) max_size = Value.vstr iso ∧
    _process_list_item (Value.vdict d) max_size
      = Value.vdict (d.map (fun kv => (kv.1, Value.vstr (pyTypeName kv.2)))) ∧
    _process_list_item (Value.vlist xs) max_size = Value.vstr (pk "list") ∧
    _process_list_item (Value.vother tn r) max_size = Value.vstr tn ∧
    ((k, Value.vlist xs) ∈ fs → k ∉ excludedSet E →
      (k, Value.vlist ((xs.take 10).map (fun item => _process_list_item item max_size)))
        ∈ get_minimal_state (some ⟨Except.ok fs⟩) max_size E) :=
  ⟨rfl, rfl, rfl, rfl, rfl, rfl, fun hmem hk => mem_reduceFields max_size hmem hk⟩

/-- Witness for C6 (amended) at a concrete input. -/
theorem item_reducer_spec_witness :
    (pk "xs", Value.vlist (([Value.vdict [(pk "a", Value.vint 1)]].take 10).map
        (fun item => _process_list_item item 5)))
      ∈ get_minimal_state
          (some ⟨Except.ok [(pk "xs", Value.vlist [Value.vdict [(pk "a", Value.vint 1)]])]⟩)
          5 none :=
  (item_reducer_spec 5 [] [] [] none [] [Value.vdict [(pk "a", Value.vint 1)]]
      [(pk "xs", Value.vlist [Value.vdict [(pk "a", Value.vint 1)]])] (pk "xs")
      none).2.2.2.2.2.2
    (by simp) (by simp [excludedSet, defaultExcluded, pk])

/-! ### JSON-safety lemmas for C7 -/

theorem jsonSafeEntries_map_typeName (d : List (PyStr × Value)) :
    jsonSafeEntries (d.map (fun kv => (kv.1, Value.vstr (pyTypeName kv.2)))) = true := by
  induction d with
  | nil => rfl
  | cons kv t ih => simp [jsonSafeEntries, jsonSafe, ih]

theorem item_reducer_jsonSafe (item : Value) (max_size : Nat) :
    jsonSafe (_process_list_item item max_size) = true := by
  cases item with
  | vnone => rfl
  | vbool b => rfl
  | vint n => rfl
  | vstr s =>
      simp only [_process_list_item]
      split <;> rfl
  | vdatetime iso => rfl
  | vlist xs => rfl
  | vdict d => simpa [_process_list_item, jsonSafe] using jsonSafeEntries_map_typeName d
  | vother tn r => rfl

theorem jsonSafeList_map_item (l : List Value) (max_size : Nat) :
    jsonSafeList (l.map (fun item => _process_list_item item max_size)) = true := by
  induction l with
  | nil => rfl
  | cons x t ih => simp [jsonSafeList, item_reducer_jsonSafe, ih]

theorem processDict_step_jsonSafe (l : List (PyStr × Value)) (max_size : Nat)
    (h : ∀ kv ∈ l, dictValueTame kv.2 = true) :
    jsonSafeEntries (l.map (fun kv =>
      match kv.2 with
      | .vdict d2 => (kv.1, Value.vdict (_process_dict d2 max_size (1 + 1) 2))
      | .vstr s =>
          if s.length > max_size then (kv.1, Value.vstr (s.take max_size))
          else (kv.1, Value.vstr s)
      | .vlist xs => (kv.1, Value.vstr (pk "<list[" ++ natStr xs.length ++ pk "]>"))
      | v => (kv.1, v))) = true := by
  induction l with
  | nil => rfl
  | cons kv t ih =>
    have hkv := h kv (by simp)
    have ht : ∀ kv' ∈ t, dictValueTame kv'.2 = true := fun kv' h' => h kv' (by simp [h'])
    rw [List.map_cons]
    simp only [jsonSafeEntries, Bool.and_eq_true]
    refine ⟨?_, ih ht⟩
    cases hv : kv.2 with
    | vdict d2 =>
        show jsonSafeEntries (_process_dict d2 max_size (1 + 1) 2) = true
        rw [processDict_at_bound d2 max_size (1 + 1) 2 (by omega)]
        rfl
    | vstr s =>
        show jsonSafe (if s.length > max_size then (kv.1, Value.vstr (s.take max_size))
          else (kv.1, Value.vstr s)).2 = true
        split <;> rfl
    | vlist xs => rfl
    | vnone => rfl
    | vbool b => rfl
    | vint n => rfl
    | vdatetime iso =>
        rw [hv] at hkv
        cases hkv
    | vother tn r =>
        rw [hv] at hkv
        cases hkv

theorem processField_jsonSafe (v : Value) (max_size : Nat)
    (h : fieldJsonTame v = true) : jsonSafe (processField v max_size) = true := by
  cases v with
  | vnone => rfl
  | vbool b => rfl
  | vint n => rfl
  | vstr s =>
      simp only [processField]
      split <;> rfl
  | vdatetime iso => rfl
  | vlist xs =>
      show jsonSafeList ((xs.take 10).map (fun item => _process_list_item item max_size)) = true
      exact jsonSafeList_map_item _ _
  | vdict d =>
      have hall : d.all (fun kv => dictValueTame kv.2) = true := h
      have hd : ∀ kv ∈ d, dictValueTame kv.2 = true :=
        fun kv hkv => List.all_eq_true.mp hall kv hkv
      show jsonSafeEntries (_process_dict d max_size 1 2) = true
      rw [processDict_below d max_size 1 2 (by omega)]
      exact processDict_step_jsonSafe (d.take 20) max_size
        (fun kv hkv => hd kv (List.mem_of_mem_take hkv))
  | vother tn r =>
      cases r with
      | none => rfl
      | some s =>
          simp only [processField]
          split <;> rfl

/-- C7 counterexample: the reduction of a state is not always JSON-safe —
`_process_dict`'s default branch passes a `datetime` value inside a
mapping field through unreduced, and a `datetime` is not JSON
serializable. -/
theorem reduce_not_always_jsonSafe_counterexample :
    jsonSafeEntries (get_minimal_state (some ⟨Except.ok
        [(pk "d", Value.vdict [(pk "t", Value.vdatetime (pk "2024-01-01T00:00:00"))])]⟩)
      1000 none) = false := by
  have hpd : _process_dict [(pk "t", Value.vdatetime (pk "2024-01-01T00:00:00"))] 1000 1 2
      = [(pk "t", Value.vdatetime (pk "2024-01-01T00:00:00"))] := by
    rw [processDict_below _ _ _ _ (by omega)]
    rfl
  show jsonSafeEntries [(pk "d", Value.vdict
    (_process_dict [(pk "t", Value.vdatetime (pk "2024-01-01T00:00:00"))] 1000 1 2))] = false
  rw [hpd]
  rfl

/-- C7 amended: the mapping returned by `get_minimal_state` is JSON-safe
(everything reachable is null, boolean, number, string, list or mapping of
such) provided every mapping-valued field of the state has no `datetime`
and no non-JSON object among its direct values — the one hole being that
`_process_dict`'s default branch passes such values through unchanged.
All other field kinds (strings, numbers, timestamps, arbitrary objects,
and lists, including lists containing mappings or objects) always reduce
to JSON-safe values. -/
theorem reduce_jsonSafe_of_tame_dict_fields
    (fs : List (PyStr × Value)) (max_size : Nat) (E : Option (List PyStr))
    (h : fs.all (fun kv => fieldJsonTame kv.2) = true) :
    jsonSafeEntries (get_minimal_state (some ⟨Except.ok fs⟩) max_size E) = true := by
  show jsonSafeEntries (reduceFields fs max_size (excludedSet E)) = true
  induction fs with
  | nil => rfl
  | cons kv t ih =>
    have hkv : fieldJsonTame kv.2 = true := by
      have := List.all_eq_true.mp h kv (by simp)
      simpa using this
    have ht : t.all (fun kv => fieldJsonTame kv.2) = true := by
      apply List.all_eq_true.mpr
      intro kv' hkv'
      exact List.all_eq_true.mp h kv' (by simp [hkv'])
    by_cases hk : kv.1 ∈ excludedSet E
    · simpa [reduceFields, hk] using ih ht
    · have hhead := processField_jsonSafe kv.2 max_size hkv
      simpa [reduceFields, hk, jsonSafeEntries, hhead] using ih ht

/-- Witness for C7 (amended) at a concrete input. -/
theorem reduce_jsonSafe_of_tame_dict_fields_witness :
    ([(pk "d", Value.vdict [(pk "n", Value.vint 3)]),
        (pk "xs", Value.vlist [Value.vdatetime (pk "2024-01-01T00:00:00")]),
        (pk "o", Value.vother (pk "Widget") none)].all
      (fun kv => fieldJsonTame kv.2) = true) ∧
    jsonSafeEntries (get_minimal_state (some ⟨Except.ok
        [(pk "d", Value.vdict [(pk "n", Value.vint 3)]),
          (pk "xs", Value.vlist [Value.vdatetime (pk "2024-01-01T00:00:00")]),
          (pk "o", Value.vother (pk "Widget") none)]⟩) 1000 none) = true :=
  ⟨by decide, reduce_jsonSafe_of_tame_dict_fields _ 1000 none (by decide)⟩

/-! ### Idempotence lemmas for C8 -/

theorem map_id_of_fixed {α : Type} (f : α → α) :
    ∀ (l : List α), (∀ x ∈ l, f x = x) → l.map f = l := by
  intro l h
  induction l with
  | nil => rfl
  | cons x t ih => simp [h x (by simp), ih (fun y hy => h y (by simp [hy]))]

theorem item_fixed_of_minimalScalar (x : Value) (max_size : Nat)
    (h : minimalScalar max_size x = true) : _process_list_item x max_size = x := by
  cases x with
  | vnone => rfl
  | vbool b => rfl
  | vint n => rfl
  | vstr s =>
      have hle : ¬ s.length > max_size := by simpa [minimalScalar] using h
      simp [_process_list_item, hle]
  | vdatetime iso => exact Bool.noConfusion h
  | vlist xs => exact Bool.noConfusion h
  | vdict d => exact Bool.noConfusion h
  | vother tn r => exact Bool.noConfusion h

theorem processDict_fixed_of_minimal (d : List (PyStr × Value)) (max_size : Nat)
    (hlen : d.length ≤ 20) (hvals : ∀ kv ∈ d, minimalScalar max_size kv.2 = true) :
    _process_dict d max_size 1 2 = d := by
  rw [processDict_below d max_size 1 2 (by omega), List.take_of_length_le hlen]
  apply map_id_of_fixed
  intro kv hkv
  have hv := hvals kv hkv
  cases hx : kv.2 with
  | vnone =>
      show (kv.1, Value.vnone) = kv
      rw [← hx]
  | vbool b =>
      show (kv.1, Value.vbool b) = kv
      rw [← hx]
  | vint n =>
      show (kv.1, Value.vint n) = kv
      rw [← hx]
  | vstr s =>
      rw [hx] at hv
      have hle : ¬ s.length > max_size := by simpa [minimalScalar] using hv
      show (if s.length > max_size then (kv.1, Value.vstr (s.take max_size))
        else (kv.1, Value.vstr s)) = kv
      rw [if_neg hle, ← hx]
  | vdatetime iso => rw [hx] at hv; exact Bool.noConfusion hv
  | vlist xs => rw [hx] at hv; exact Bool.noConfusion hv
  | vdict d2 => rw [hx] at hv; exact Bool.noConfusion hv
  | vother tn r => rw [hx] at hv; exact Bool.noConfusion hv

theorem processField_fixed (v : Value) (max_size : Nat)
    (h : minimalField max_size v = true) : processField v max_size = v := by
  cases v with
  | vnone => rfl
  | vbool b => rfl
  | vint n => rfl
  | vstr s =>
      have hle : ¬ s.length > max_size := by simpa [minimalField] using h
      simp [processField, hle]
  | vlist xs =>
      have h' : xs.length ≤ 10 ∧ xs.all (fun x => minimalScalar max_size x) = true := by
        simpa [minimalField] using h
      show Value.vlist ((xs.take 10).map (fun item => _process_list_item item max_size))
        = Value.vlist xs
      rw [List.take_of_length_le h'.1,
        map_id_of_fixed _ xs
          (fun x hx => item_fixed_of_minimalScalar x max_size
            (List.all_eq_true.mp h'.2 x hx))]
  | vdict d =>
      have h' : d.length ≤ 20 ∧ d.all (fun kv => minimalScalar max_size kv.2) = true := by
        simpa [minimalField] using h
      show Value.vdict (_process_dict d max_size 1 2) = Value.vdict d
      rw [processDict_fixed_of_minimal d max_size h'.1
        (fun kv hkv => List.all_eq_true.mp h'.2 kv hkv)]
  | vdatetime iso => exact Bool.noConfusion h
  | vother tn r => exact Bool.noConfusion h

theorem reduceFields_cons_excl {kv : PyStr × Value} {t : List (PyStr × Value)}
    {max_size : Nat} {excl : List PyStr} (hk : kv.1 ∈ excl) :
    reduceFields (kv :: t) max_size excl = reduceFields t max_size excl := by
  simp [reduceFields, List.filterMap_cons, hk]

theorem reduceFields_cons_keep {kv : PyStr × Value} {t : List (PyStr × Value)}
    {max_size : Nat} {excl : List PyStr} (hk : kv.1 ∉ excl) :
    reduceFields (kv :: t) max_size excl
      = (kv.1, processField kv.2 max_size) :: reduceFields t max_size excl := by
  simp [reduceFields, List.filterMap_cons, hk]

theorem reduceFields_fixed (fs : List (PyStr × Value)) (max_size : Nat)
    (excl : List PyStr) (h : fs.all (fun kv => minimalField max_size kv.2) = true) :
    reduceFields (reduceFields fs max_size excl) max_size excl
      = reduceFields fs max_size excl := by
  induction fs with
  | nil => rfl
  | cons kv t ih =>
    have hkv : minimalField max_size kv.2 = true := List.all_eq_true.mp h kv (by simp)
    have ht : t.all (fun kv => minimalField max_size kv.2) = true :=
      List.all_eq_true.mpr (fun kv' h' => List.all_eq_true.mp h kv' (by simp [h']))
    by_cases hk : kv.1 ∈ excl
    · rw [reduceFields_cons_excl hk]
      exact ih ht
    · have hfix := processField_fixed kv.2 max_size hkv
      rw [reduceFields_cons_keep hk, hfix, reduceFields_cons_keep hk, hfix, ih ht]

/-- C8 counterexample: reduction is not idempotent on a state that is
already within all the claimed bounds — a one-element list field holding a
small mapping (whose only value is a number).  The first reduction maps
the dict item to `{"a": "int"}`; the second maps it to `{"a": "str"}`. -/
theorem reduce_not_idempotent_counterexample :
    get_minimal_state (some ⟨Except.ok (get_minimal_state (some ⟨Except.ok
        [(pk "xs", Value.vlist [Value.vdict [(pk "a", Value.vint 1)]])]⟩) 1000 none)⟩)
      1000 none
      ≠ get_minimal_state (some ⟨Except.ok
        [(pk "xs", Value.vlist [Value.vdict [(pk "a", Value.vint 1)]])]⟩) 1000 none := by
  have h1 : get_minimal_state (some ⟨Except.ok
      [(pk "xs", Value.vlist [Value.vdict [(pk "a", Value.vint 1)]])]⟩) 1000 none
      = [(pk "xs", Value.vlist [Value.vdict [(pk "a", Value.vstr (pk "int"))]])] := rfl
  have h2 : get_minimal_state (some ⟨Except.ok
      [(pk "xs", Value.vlist [Value.vdict [(pk "a", Value.vstr (pk "int"))]])]⟩) 1000 none
      = [(pk "xs", Value.vlist [Value.vdict [(pk "a", Value.vstr (pk "str"))]])] := rfl
  rw [h1, h2]
  simp [pk]

/-- C8 amended: reduction is idempotent on already-minimal input, provided
additionally that list elements and mapping values are scalars already
within the bounds (null, booleans, numbers, strings of length at most
`maxFieldSize`) — in particular no mapping nested inside a list field and
no mapping nested inside a mapping field — and no timestamp- or
other-typed fields: then reducing the reduced output again returns it
unchanged. -/
theorem reduce_idempotent_on_minimal_fields
    (fs : List (PyStr × Value)) (max_size : Nat) (E : Option (List PyStr))
    (h : fs.all (fun kv => minimalField max_size kv.2) = true) :
    get_minimal_state (some ⟨Except.ok
        (get_minimal_state (some ⟨Except.ok fs⟩) max_size E)⟩) max_size E
      = get_minimal_state (some ⟨Except.ok fs⟩) max_size E := by
  show reduceFields (reduceFields fs max_size (excludedSet E)) max_size (excludedSet E)
    = reduceFields fs max_size (excludedSet E)
  exact reduceFields_fixed fs max_size (excludedSet E) h

/-- Witness for C8 (amended) at a concrete input. -/
theorem reduce_idempotent_on_minimal_fields_witness :
    ([(pk "agent_context", Value.vint 9), (pk "name", Value.vstr (pk "ab")),
        (pk "xs", Value.vlist [Value.vint 1, Value.vnone]),
        (pk "d", Value.vdict [(pk "k", Value.vbool true)])].all
      (fun kv => minimalField 5 kv.2) = true) ∧
    get_minimal_state (some ⟨Except.ok (get_minimal_state (some ⟨Except.ok
        [(pk "agent_context", Value.vint 9), (pk "name", Value.vstr (pk "ab")),
          (pk "xs", Value.vlist [Value.vint 1, Value.vnone]),
          (pk "d", Value.vdict [(pk "k", Value.vbool true)])]⟩) 5 none)⟩) 5 none
      = get_minimal_state (some ⟨Except.ok
        [(pk "agent_context", Value.vint 9), (pk "name", Value.vstr (pk "ab")),
          (pk "xs", Value.vlist [Value.vint 1, Value.vnone]),
          (pk "d", Value.vdict [(pk "k", Value.vbool true)])]⟩) 5 none :=
  ⟨by decide, reduce_idempotent_on_minimal_fields _ 5 none (by decide)⟩

/-! ### Heap and kwargs-dict lemmas for the restoration claims -/

theorem heapSet_length {Ctx : Type} :
    ∀ (h : Heap Ctx) (n : Nat) (d : Kwargs Ctx), (heapSet h n d).length = h.length := by
  intro h
  induction h with
  | nil => intro n d; rfl
  | cons x t ih =>
    intro n d
    cases n with
    | zero => rfl
    | succ k =>
        show (x :: heapSet t k d).length = (x :: t).length
        simp [ih]

theorem heapGet_append_lt {Ctx : Type} :
    ∀ (h l : Heap Ctx) (m : Nat), m < h.length → heapGet (h ++ l) m = heapGet h m := by
  intro h
  induction h with
  | nil => intro l m hm; cases hm
  | cons x t ih =>
    intro l m hm
    cases m with
    | zero => rfl
    | succ k =>
        show heapGet (t ++ l) k = heapGet t k
        exact ih l k (by simpa using hm)

theorem heapGet_append_self {Ctx : Type} :
    ∀ (h : Heap Ctx) (d : Kwargs Ctx), heapGet (h ++ [d]) h.length = d := by
  intro h
  induction h with
  | nil => intro d; rfl
  | cons x t ih => intro d; exact ih d

theorem heapGet_set_self {Ctx : Type} :
    ∀ (h : Heap Ctx) (n : Nat) (d : Kwargs Ctx), n < h.length →
      heapGet (heapSet h n d) n = d := by
  intro h
  induction h with
  | nil => intro n d hn; cases hn
  | cons x t ih =>
    intro n d hn
    cases n with
    | zero => rfl
    | succ k =>
        show heapGet (heapSet t k d) k = d
        exact ih k d (by simpa using hn)

theorem heapGet_set_ne {Ctx : Type} :
    ∀ (h : Heap Ctx) (n m : Nat) (d : Kwargs Ctx), n ≠ m →
      heapGet (heapSet h n d) m = heapGet h m := by
  intro h
  induction h with
  | nil => intro n m d _; rfl
  | cons x t ih =>
    intro n m d hne
    cases n with
    | zero =>
        cases m with
        | zero => exact absurd rfl hne
        | succ j => rfl
    | succ k =>
        cases m with
        | zero => rfl
        | succ j =>
            show heapGet (heapSet t k d) j = heapGet t j
            exact ih k j d (fun hh => hne (by rw [hh]))

theorem find_filter_map_assign {Ctx : Type} (k : PyStr) (v : Arg Ctx)
    (g : PyStr × Arg Ctx → Bool) (hg : g (k, v) = true) :
    ∀ d : Kwargs Ctx, dictHasKey d k = true →
      ((d.map (fun p => if p.1 == k then (k, v) else p)).filter g).find?
          (fun p => p.1 == k) = some (k, v) := by
  intro d
  induction d with
  | nil => intro hh; exact Bool.noConfusion hh
  | cons p t ih =>
    intro hh
    by_cases hp : p.1 == k
    · simp only [List.map_cons, if_pos hp, List.filter_cons, hg, if_pos]
      simp [List.find?, beq_self_eq_true]
    · have hht : dictHasKey t k = true := by
        simpa [dictHasKey, List.any_cons, hp] using hh
      simp only [List.map_cons, if_neg hp, List.filter_cons]
      cases hgp : g p with
      | true =>
          simp only [if_pos]
          rw [List.find?_cons_of_neg _ (by simpa using hp)]
          exact ih hht
      | false =>
          simp only [Bool.false_eq_true, if_false]
          exact ih hht

theorem find_filter_append_single {Ctx : Type} (k : PyStr) (v : Arg Ctx)
    (g : PyStr × Arg Ctx → Bool) (hg : g (k, v) = true) :
    ∀ d : Kwargs Ctx, dictHasKey d k = false →
      ((d ++ [(k, v)]).filter g).find? (fun p => p.1 == k) = some (k, v) := by
  intro d
  induction d with
  | nil =>
      intro _
      simp [List.filter, hg, List.find?, beq_self_eq_true]
  | cons p t ih =>
    intro hh
    have h' : (p.1 == k) = false ∧ (t.any (fun p => p.1 == k)) = false := by
      simpa only [dictHasKey, List.any_cons, Bool.or_eq_false_iff] using hh
    have hp : (p.1 == k) = false := h'.1
    have hht : dictHasKey t k = false := h'.2
    rw [List.cons_append, List.filter_cons]
    cases hgp : g p with
    | true =>
        simp only [if_pos]
        rw [List.find?_cons_of_neg _ (by simpa using hp)]
        exact ih hht
    | false =>
        simp only [Bool.false_eq_true, if_false]
        exact ih hht

theorem dictLookup_filter_assign {Ctx : Type} (d : Kwargs Ctx) (k : PyStr) (v : Arg Ctx)
    (hv : isNoneArg v = false) :
    dictLookup ((dictAssign d k v).filter (fun p => !isNoneArg p.2)) k = some v := by
  unfold dictLookup dictAssign
  by_cases hh : dictHasKey d k
  · rw [if_pos hh, find_filter_map_assign k v _ (by simp [hv]) d hh]
    rfl
  · rw [if_neg hh, find_filter_append_single k v _ (by simp [hv]) d
      (Bool.of_not_eq_true hh)]
    rfl

theorem dictLookup_assign {Ctx : Type} (d : Kwargs Ctx) (k : PyStr) (v : Arg Ctx) :
    dictLookup (dictAssign d k v) k = some v := by
  have h1 := find_filter_map_assign k v (fun _ => true) rfl d
  have h2 := find_filter_append_single k v (fun _ => true) rfl d
  rw [List.filter_true] at h1 h2
  unfold dictLookup dictAssign
  by_cases hh : dictHasKey d k
  · rw [if_pos hh, h1 hh]
    rfl
  · rw [if_neg hh, h2 (Bool.of_not_eq_true hh)]
    rfl

/-- C10: `restore_from_minimal_state` never mutates the `minimal_state`
dict it is given — after the call the heap cell behind the argument
reference holds exactly the entries it held before, for every heap,
constructor, context and overrides: the function only writes to the fresh
copy it allocates. -/
theorem restore_does_not_mutate_minimal_state {Ctx : Type}
    (h : Heap Ctx) (m : Nat) (model_type : Kwargs Ctx → Except Unit (Kwargs Ctx))
    (c : Ctx) (ov : Kwargs Ctx) (hm : m < h.length) :
    heapGet (restore_from_minimal_state h m model_type c ov).1 m = heapGet h m := by
  show heapGet (heapSet (heapSet (h ++ [heapGet h m]) h.length
        (dictAssign (heapGet (h ++ [heapGet h m]) h.length) agent_context_key (Arg.ctx c)))
      h.length _ ++ [_]) m = heapGet h m
  rw [heapGet_append_lt _ _ m (by simp [heapSet_length]; omega),
    heapGet_set_ne _ _ _ _ (by omega), heapGet_set_ne _ _ _ _ (by omega),
    heapGet_append_lt _ _ m hm]

/-- Witness for C10 at a concrete input (a constructor that always fails
and an override dict holding a null, so every code path runs). -/
theorem restore_does_not_mutate_minimal_state_witness :
    heapGet (restore_from_minimal_state
        [[(pk "a", Arg.val (Value.vint 1)), (agent_context_key, Arg.val Value.vnone)]] 0
        (fun _ => Except.error ()) (5 : Nat)
        [(pk "b", Arg.val Value.vnone)]).1 0
      = heapGet [[(pk "a", Arg.val (Value.vint 1)), (agent_context_key, Arg.val Value.vnone)]] 0 :=
  restore_does_not_mutate_minimal_state _ 0 _ 5 _ (by simp)

/-- C3: for every heap (so every well-formed or malformed minimal-state
dict, `{}` and garbage keys included), every context, and empty overrides,
`restore_from_minimal_state` returns a constructed instance and no
exception escapes, provided the model's constructor honours the
`agent_context` keyword (a Pydantic model stores the fields it was
constructed with) and default construction from the context alone succeeds
(the spec's "constructing a fresh default state must never fail"
contract); on failure of the main construction it falls back to
`model_type(agent_context=context)`; and the returned instance's
`agent_context` field is the `context` argument, whatever the minimal
state held under that key. -/
theorem restore_is_total_and_repoints_context {Ctx : Type}
    (h : Heap Ctx) (m : Nat) (model_type : Kwargs Ctx → Except Unit (Kwargs Ctx)) (c : Ctx)
    (hctor : ∀ kw inst, model_type kw = .ok inst →
      dictLookup inst agent_context_key = dictLookup kw agent_context_key)
    (hdefault : ∃ inst, model_type [(agent_context_key, Arg.ctx c)] = .ok inst) :
    ∃ inst, (restore_from_minimal_state h m model_type c []).2 = .ok inst
      ∧ dictLookup inst agent_context_key = some (Arg.ctx c) := by
  have hkw : (restore_from_minimal_state h m model_type c []).2
      = match model_type ((dictAssign (heapGet h m) agent_context_key
            (Arg.ctx c)).filter (fun p => !isNoneArg p.2)) with
        | .ok inst => Except.ok inst
        | .error _ => model_type [(agent_context_key, Arg.ctx c)] := by
    show (match model_type (heapGet ((heapSet (heapSet (h ++ [heapGet h m]) h.length
          (dictAssign (heapGet (h ++ [heapGet h m]) h.length) agent_context_key (Arg.ctx c)))
            h.length (dictUpdate (heapGet (heapSet (h ++ [heapGet h m]) h.length
              (dictAssign (heapGet (h ++ [heapGet h m]) h.length) agent_context_key
                (Arg.ctx c))) h.length) [])) ++ [_])
          (heapSet (heapSet (h ++ [heapGet h m]) h.length _) h.length _).length) with
        | .ok inst => Except.ok inst
        | .error _ =>
            if dictHasKey ([] : Kwargs Ctx) agent_context_key then Except.error ()
            else model_type ((agent_context_key, Arg.ctx c) :: [])) = _
    rw [heapGet_append_self,
      heapGet_set_self _ _ _ (by simp only [heapSet_length, List.length_append,
        List.length_cons, List.length_nil]; omega),
      heapGet_set_self _ _ _ (by simp only [heapSet_length, List.length_append,
        List.length_cons, List.length_nil]; omega),
      heapGet_append_self]
    rfl
  rw [hkw]
  obtain ⟨instD, hinstD⟩ := hdefault
  have hmain := dictLookup_filter_assign (heapGet h m) agent_context_key (Arg.ctx c) rfl
  cases heval : model_type ((dictAssign (heapGet h m) agent_context_key
      (Arg.ctx c)).filter (fun p => !isNoneArg p.2)) with
  | ok inst =>
      refine ⟨inst, rfl, ?_⟩
      rw [hctor _ inst heval, hmain]
  | error e =>
      refine ⟨instD, hinstD, ?_⟩
      rw [hctor _ instD hinstD]
      rfl

/-- Witness for C3 at a concrete input: a one-cell heap whose dict holds a
stale value under `agent_context` plus a null-valued garbage key, and the
identity constructor. -/
theorem restore_is_total_and_repoints_context_witness :
    ∃ inst, (restore_from_minimal_state
        [[(agent_context_key, Arg.val (Value.vint 5)), (pk "junk", Arg.val Value.vnone)]] 0
        (fun kw => Except.ok kw) (7 : Nat) []).2 = .ok inst
      ∧ dictLookup inst agent_context_key = some (Arg.ctx 7) :=
  restore_is_total_and_repoints_context _ 0 _ 7
    (fun kw inst hok => by cases hok; rfl)
    ⟨[(agent_context_key, Arg.ctx 7)], rfl⟩

/-- C9: `restore_or_create_agent_state` restores when a prior serialized
state is present and decodes into the target type, re-pointing the
restored instance's back-reference field to the current context (when the
model has that field); on decode/validation failure — which
`deserialize_agent_state` recovers as `None`, never raising — or when no
prior state is present, it constructs a brand-new state from the caller's
`create_kwargs` (the genesis case). -/
theorem restore_or_create_spec {Ctx : Type} (agent_state : PyStr)
    (model_validate : PyStr → Option (Kwargs Ctx)) (c : Ctx) (genesis : Kwargs Ctx) :
    (∀ restored, agent_state ≠ [] → model_validate agent_state = some restored →
      dictHasKey restored agent_context_key = true →
      restore_or_create_agent_state agent_state model_validate c genesis
          = dictAssign restored agent_context_key (Arg.ctx c)
        ∧ dictLookup (restore_or_create_agent_state agent_state model_validate c genesis)
            agent_context_key = some (Arg.ctx c)) ∧
    (agent_state ≠ [] → model_validate agent_state = none →
      restore_or_create_agent_state agent_state model_validate c genesis = genesis) ∧
    (agent_state = [] →
      restore_or_create_agent_state agent_state model_validate c genesis = genesis) := by
  refine ⟨fun restored hne hsome hhas => ?_, fun hne hnone => ?_, fun hnil => ?_⟩
  · have hres : restore_or_create_agent_state agent_state model_validate c genesis
        = dictAssign restored agent_context_key (Arg.ctx c) := by
      simp [restore_or_create_agent_state, deserialize_agent_state, hne, hsome, hhas]
    exact ⟨hres, by rw [hres]; exact dictLookup_assign restored agent_context_key (Arg.ctx c)⟩
  · simp [restore_or_create_agent_state, deserialize_agent_state, hne, hnone]
  · simp [restore_or_create_agent_state, hnil]

/-- Witness for C9 at concrete inputs: a decoder that succeeds on the
string `"s"` (returning an instance with a stale `agent_context`) and
fails on everything else. -/
theorem restore_or_create_spec_witness :
    (restore_or_create_agent_state (pk "s")
        (fun j => if j = pk "s" then some [(agent_context_key, Arg.val (Value.vint 3))] else none)
        (7 : Nat) [(pk "fresh", Arg.val Value.vnone)]
      = dictAssign [(agent_context_key, Arg.val (Value.vint 3))] agent_context_key (Arg.ctx 7)
      ∧ dictLookup (restore_or_create_agent_state (pk "s")
          (fun j => if j = pk "s" then some [(agent_context_key, Arg.val (Value.vint 3))] else none)
          7 [(pk "fresh", Arg.val Value.vnone)]) agent_context_key = some (Arg.ctx 7)) ∧
    (restore_or_create_agent_state (pk "bad")
        (fun j => if j = pk "s" then some [(agent_context_key, Arg.val (Value.vint 3))] else none)
        7 [(pk "fresh", Arg.val Value.vnone)] = [(pk "fresh", Arg.val Value.vnone)]) ∧
    (restore_or_create_agent_state []
        (fun j => if j = pk "s" then some [(agent_context_key, Arg.val (Value.vint 3))] else none)
        7 [(pk "fresh", Arg.val Value.vnone)] = [(pk "fresh", Arg.val Value.vnone)]) := by
  refine ⟨(restore_or_create_spec (pk "s") _ 7 _).1 _ (by simp [pk]) (by simp [pk]) rfl,
    (restore_or_create_spec (pk "bad") _ 7 _).2.1 (by simp [pk]) (by simp [pk]),
    (restore_or_create_spec [] _ 7 _).2.2 rfl⟩

end GatherSDK
